import Mathlib

/-!
# System Monitor Tool: a verification development for `system_monitor.cpp`

The program is one C++ file: a polling loop over `/proc`, a set of delta
computations between two samples, a sort, and a line-oriented command handler.

Conventions of the embedding

* `unsigned long long` / `unsigned long` values are `Nat`, every arithmetic
  operation on them is followed by `% U64` (the target is LP64 Linux);
  `int` values are `Int` clamped to the 32-bit range where the source's
  extraction clamps them.
* `double` values are exact rationals (`ℚ`): the percentages are quotients of
  integers, and the orderings, the zero tests and the exact-zero results that
  the theorems speak about are the same on finite doubles and on rationals.
* `std::string` is `List Char`; a `std::stringstream` is the unread suffix
  together with its `failbit`.
* `std::unordered_map<int, ProcSnapshot>` is an association list whose
  iteration order is the list order.
* Code that can throw returns `Except`.
-/

namespace SystemMonitor

/-! ## Machine integers -/

/-- Modulus of `unsigned long long` (and of `unsigned long` on LP64). -/
def U64 : Nat := 18446744073709551616

/-- Largest `int`. -/
def INT_MAX : Int := 2147483647

/-- Smallest `int`. -/
def INT_MIN : Int := -2147483648

/-- Unsigned 64-bit addition. -/
def uadd (a b : Nat) : Nat := (a + b) % U64

/-- Unsigned 64-bit subtraction: wraps around modulo `2^64`. -/
def usub (a b : Nat) : Nat := (a % U64 + U64 - b % U64) % U64

/-! ## Data model (lines 24-34) -/

/-- The `struct ProcSnapshot`: cumulative ticks and resident pages. -/
structure ProcSnapshot where
  totalTime : Nat
  rss : Nat
  deriving DecidableEq, Repr

/-- The `struct ProcInfo`: one display row. -/
structure ProcInfo where
  pid : Int
  name : List Char
  cpuPercent : ℚ
  memPercent : ℚ
  deriving DecidableEq

/-- The `unordered_map<int, ProcSnapshot>` of the loop. -/
abbrev ProcMap := List (Int × ProcSnapshot)

/-- The call `m.find(pid)` followed by `m[pid]`: the snapshot stored under `pid`, if any. -/
def ProcMap.find (m : ProcMap) (pid : Int) : Option ProcSnapshot :=
  match m with
  | [] => none
  | (k, v) :: rest => if k = pid then some v else ProcMap.find rest pid

/-- The assignment `m[pid] = s`: overwrite the entry of `pid` or add one. -/
def ProcMap.set (m : ProcMap) (pid : Int) (s : ProcSnapshot) : ProcMap :=
  match m with
  | [] => [(pid, s)]
  | (k, v) :: rest => if k = pid then (k, s) :: rest else (k, v) :: ProcMap.set rest pid s

/-- The keys of a map are pairwise distinct, as in every `unordered_map`. -/
def ProcMap.WellFormed (m : ProcMap) : Prop := (m.map Prod.fst).Nodup

instance ProcMap.decWellFormed (m : ProcMap) : Decidable m.WellFormed :=
  inferInstanceAs (Decidable ((m.map Prod.fst).Nodup))

/-- The eight tick counters of the aggregate `cpu` line, in file order. -/
structure CpuSample where
  user : Nat
  nice : Nat
  system : Nat
  idle : Nat
  iowait : Nat
  irq : Nat
  softirq : Nat
  steal : Nat
  deriving DecidableEq, Repr

/-- The two function-local statics `prevTotal2`, `prevIdle2` of the display block. -/
structure CpuBaseline where
  prevTotal2 : Nat
  prevIdle2 : Nat
  deriving DecidableEq, Repr

/-! ## Memory totals (lines 194-195) -/

/-- The expression `(totKB > availKB2) ? (totKB - availKB2) : 0`. -/
def usedKB (totKB availKB2 : Nat) : Nat :=
  if totKB > availKB2 then usub totKB availKB2 else 0

/-! ## Overall CPU usage (lines 236-244) -/

/-- The value `idleAll = idle + iowait`. -/
def idleAll (s : CpuSample) : Nat := uadd s.idle s.iowait

/-- The value `nonIdle = user + nice + system + irq + softirq + steal`. -/
def nonIdle (s : CpuSample) : Nat :=
  uadd (uadd (uadd (uadd (uadd s.user s.nice) s.system) s.irq) s.softirq) s.steal

/-- The value `total2 = idleAll + nonIdle`. -/
def total2 (s : CpuSample) : Nat := uadd (idleAll s) (nonIdle s)

/-- The value `totalDiff2 = total2 - prevTotal2`. -/
def totalDiff2 (b : CpuBaseline) (s : CpuSample) : Nat := usub (total2 s) b.prevTotal2

/-- The value `idleDiff2 = idleAll - prevIdle2`. -/
def idleDiff2 (b : CpuBaseline) (s : CpuSample) : Nat := usub (idleAll s) b.prevIdle2

/-- Lines 242-243: the overall CPU percentage for a parsed sample. -/
def cpuUsageOf (b : CpuBaseline) (s : CpuSample) : ℚ :=
  if totalDiff2 b s = 0 then 0
  else 100 * ((usub (totalDiff2 b s) (idleDiff2 b s) : Nat) : ℚ) / ((totalDiff2 b s : Nat) : ℚ)

/-- Line 244: the baseline stored for the next call. -/
def nextBaseline (s : CpuSample) : CpuBaseline :=
  { prevTotal2 := total2 s, prevIdle2 := idleAll s }

/-- The sum of all eight counters as a mathematical integer. -/
def CpuSample.sum (s : CpuSample) : Nat :=
  s.user + s.nice + s.system + s.idle + s.iowait + s.irq + s.softirq + s.steal

/-- The overall CPU percentage as the specification words it: the deltas are
differences of integers, and the result is guarded to `0` when the total delta is `0`. -/
def specCpuUsage (b : CpuBaseline) (s : CpuSample) : ℚ :=
  let totalDelta : Int := (s.sum : Int) - (b.prevTotal2 : Int)
  let idleDelta : Int := ((s.idle + s.iowait : Nat) : Int) - (b.prevIdle2 : Int)
  if totalDelta = 0 then 0 else 100 * ((totalDelta - idleDelta : Int) : ℚ) / (totalDelta : ℚ)

/-! ## Per-process percentages (lines 190-215) -/

/-- Lines 190-191: `totalDelta = totalJ - prevTotal`, replaced by `1` when it is `0`. -/
def totalDeltaOf (totalJ prevTotal : Nat) : Nat :=
  if usub totalJ prevTotal = 0 then 1 else usub totalJ prevTotal

/-- Lines 202-203: the previous snapshot of `pid`, `{0,0}` when there is none. -/
def prevSnapshot (prevProc : ProcMap) (pid : Int) : ProcSnapshot :=
  match prevProc.find pid with
  | some p => p
  | none => { totalTime := 0, rss := 0 }

/-- Lines 204-205: the clamped tick delta of one process. -/
def procDelta (cur prev : ProcSnapshot) : Nat :=
  if cur.totalTime ≥ prev.totalTime then usub cur.totalTime prev.totalTime else 0

/-- Line 206: `cpuPerc = 100.0 * procDelta / totalDelta`. -/
def cpuPerc (prevProc : ProcMap) (totalDelta : Nat) (pid : Int) (cur : ProcSnapshot) : ℚ :=
  100 * ((procDelta cur (prevSnapshot prevProc pid) : Nat) : ℚ) / ((totalDelta : Nat) : ℚ)

/-- Lines 207-211: `memPerc`, with `totalBytes = totKB * 1024.0`. -/
def memPerc (pageSize totKB : Nat) (cur : ProcSnapshot) : ℚ :=
  if cur.rss > 0 ∧ (totKB : ℚ) * 1024 > 0 then
    ((cur.rss : ℚ) * (pageSize : ℚ)) / ((totKB : ℚ) * 1024) * 100
  else 0

/-- The body of the loop of lines 199-215: the rows pushed to `procs`, in iteration
order; `names pid` is what `readProcName(pid)` returns. -/
def buildRows (prevProc : ProcMap) (totalDelta pageSize totKB : Nat)
    (names : Int → List Char) : ProcMap → List ProcInfo
  | [] => []
  | (pid, cur) :: rest =>
    if names pid = [] then buildRows prevProc totalDelta pageSize totKB names rest
    else
      { pid := pid, name := names pid,
        cpuPercent := cpuPerc prevProc totalDelta pid cur,
        memPercent := memPerc pageSize totKB cur }
        :: buildRows prevProc totalDelta pageSize totKB names rest

/-! ## Sorting (lines 218-221) -/

/-- The comparator lambda of the `sort` call. -/
def procBefore (a b : ProcInfo) : Bool :=
  if a.cpuPercent = b.cpuPercent then decide (a.memPercent > b.memPercent)
  else decide (a.cpuPercent > b.cpuPercent)

/-- Insertion of one row into a list ordered by `procBefore`. -/
def insertRow (x : ProcInfo) : List ProcInfo → List ProcInfo
  | [] => [x]
  | y :: ys => if procBefore x y then x :: y :: ys else y :: insertRow x ys

/-- The call `sort(procs.begin(), procs.end(), comparator)`. `std::sort` is a library
routine whose contract is to reorder the range so that no element is placed after one
it must precede; it is realised here by insertion sort with the source's comparator. -/
def sortProcs : List ProcInfo → List ProcInfo
  | [] => []
  | x :: xs => insertRow x (sortProcs xs)

/-- The order the specification asks of two rows `a`, `b` with `a` displayed first. -/
def RowsOrdered (a b : ProcInfo) : Prop :=
  b.cpuPercent ≤ a.cpuPercent ∧ (a.cpuPercent = b.cpuPercent → b.memPercent ≤ a.memPercent)

instance RowsOrdered.dec (a b : ProcInfo) : Decidable (RowsOrdered a b) :=
  inferInstanceAs (Decidable (b.cpuPercent ≤ a.cpuPercent
    ∧ (a.cpuPercent = b.cpuPercent → b.memPercent ≤ a.memPercent)))

/-! ## Text extraction: the `std::stringstream` operations the program uses -/

/-- The C-locale `isspace`: space, `\t`, `\n`, `\v`, `\f`, `\r`. -/
def isSpace (c : Char) : Bool := c.toNat = 32 || (9 ≤ c.toNat && c.toNat ≤ 13)

/-- The C-locale `isdigit`. -/
def isDigit (c : Char) : Bool := 48 ≤ c.toNat && c.toNat ≤ 57

/-- The function `isNumber` (lines 63-66): every character is a digit. -/
def isNumber (s : List Char) : Bool := s.all isDigit

/-- The value of a decimal digit character. -/
def digitVal (c : Char) : Nat := c.toNat - 48

/-- The number a run of decimal digits denotes. -/
def digitsVal (ds : List Char) : Nat := ds.foldl (fun acc c => 10 * acc + digitVal c) 0

/-- A string stream: the characters not yet read and whether `failbit` is set.
Reaching the end of the buffer is visible as `buf = []`. -/
structure IStream where
  buf : List Char
  failed : Bool
  deriving DecidableEq, Repr

/-- A stream over the whole of `s`, as `stringstream ss(s)` makes it. -/
def IStream.ofLine (s : List Char) : IStream := { buf := s, failed := false }

/-- Skipping of leading white space, done by the sentry of every formatted extraction. -/
def skipWs (s : List Char) : List Char := s.dropWhile isSpace

/-- The extraction `ss >> str` into a `std::string` holding `old`. When the sentry fails
(the stream has failed, or only white space is left) the string is not written. -/
def IStream.getWord (s : IStream) (old : List Char) : List Char × IStream :=
  if s.failed then (old, s)
  else
    match skipWs s.buf with
    | [] => (old, { buf := [], failed := true })
    | c :: cs =>
      ((c :: cs).takeWhile (fun x => !isSpace x),
        { buf := (c :: cs).dropWhile (fun x => !isSpace x), failed := false })

/-- The sign that may start a numeric field, with the characters after it. -/
def splitSign (s : List Char) : Bool × List Char :=
  match s with
  | [] => (false, [])
  | c :: cs => if c = '-' then (true, cs) else if c = '+' then (false, cs) else (false, c :: cs)

/-- The extraction `ss >> n` into an `unsigned long long` (or `unsigned long`) holding
`old`. Sentry failure leaves `n` alone; a field without digits stores `0`; a value that
does not fit stores the maximum; both of the latter set `failbit`. A leading `-` negates
in the unsigned type. -/
def IStream.getU64 (s : IStream) (old : Nat) : Nat × IStream :=
  if s.failed then (old, s)
  else
    match skipWs s.buf with
    | [] => (old, { buf := [], failed := true })
    | c :: cs =>
      let sb := splitSign (c :: cs)
      let ds := sb.2.takeWhile isDigit
      let after := sb.2.dropWhile isDigit
      if ds = [] then (0, { buf := after, failed := true })
      else if digitsVal ds ≥ U64 then (U64 - 1, { buf := after, failed := true })
      else ((if sb.1 then (U64 - digitsVal ds) % U64 else digitsVal ds),
            { buf := after, failed := false })

/-- The extraction `ss >> n` into an `int` holding `old`. Sentry failure leaves `n` alone;
a field without digits stores `0`; a value outside the `int` range stores the nearest
bound; both of the latter set `failbit`. -/
def IStream.getInt (s : IStream) (old : Int) : Int × IStream :=
  if s.failed then (old, s)
  else
    match skipWs s.buf with
    | [] => (old, { buf := [], failed := true })
    | c :: cs =>
      let sb := splitSign (c :: cs)
      let ds := sb.2.takeWhile isDigit
      let after := sb.2.dropWhile isDigit
      let v : Int := if sb.1 then -(digitsVal ds : Int) else (digitsVal ds : Int)
      if ds = [] then (0, { buf := after, failed := true })
      else if v < INT_MIN then (INT_MIN, { buf := after, failed := true })
      else if v > INT_MAX then (INT_MAX, { buf := after, failed := true })
      else (v, { buf := after, failed := false })

/-- The loop `for (i < n) if (!(ss >> token)) return snap;`: the stream after `n` words,
or `none` when one of the extractions fails. -/
def skipTokens : Nat → IStream → Option IStream
  | 0, s => some s
  | n + 1, s =>
    let r := s.getWord []
    if r.2.failed then none else skipTokens n r.2

/-- The call `s.find(c)`: index of the first `c`, `none` for `npos`. -/
def findChar (c : Char) : List Char → Option Nat
  | [] => none
  | x :: xs => if x = c then some 0 else (findChar c xs).map (· + 1)

/-- The call `s.rfind(c)`: index of the last `c`, `none` for `npos`. -/
def rfindChar (c : Char) : List Char → Option Nat
  | [] => none
  | x :: xs =>
    match rfindChar c xs with
    | some i => some (i + 1)
    | none => if x = c then some 0 else none

/-- What the program can throw. -/
inductive Exn where
  | outOfRange
  deriving DecidableEq, Repr

/-- The call `s.substr(pos)`: throws `std::out_of_range` when `pos > s.size()`. -/
def substrFrom (s : List Char) (pos : Nat) : Except Exn (List Char) :=
  if pos > s.length then Except.error Exn.outOfRange else Except.ok (s.drop pos)

/-- The call `s.substr(pos, n)`, used only with `pos ≤ s.size()`. -/
def substrLen (s : List Char) (pos n : Nat) : List Char := (s.drop pos).take n

/-! ## Aggregate counters (lines 39-48 and 229-235) -/

/-- The extraction `ss >> cpu >> user >> ... >> steal` into counters initialised to `0`. -/
def parseCpuLine (line : List Char) : CpuSample :=
  let r0 := (IStream.ofLine line).getWord []
  let r1 := r0.2.getU64 0
  let r2 := r1.2.getU64 0
  let r3 := r2.2.getU64 0
  let r4 := r3.2.getU64 0
  let r5 := r4.2.getU64 0
  let r6 := r5.2.getU64 0
  let r7 := r6.2.getU64 0
  let r8 := r7.2.getU64 0
  { user := r1.1, nice := r2.1, system := r3.1, idle := r4.1,
    iowait := r5.1, irq := r6.1, softirq := r7.1, steal := r8.1 }

/-- The sum `user + nice + system + idle + iowait + irq + softirq + steal` of line 47. -/
def jiffiesOf (s : CpuSample) : Nat :=
  uadd (uadd (uadd (uadd (uadd (uadd (uadd s.user s.nice) s.system) s.idle) s.iowait) s.irq)
    s.softirq) s.steal

/-- The function `readTotalJiffies`; `stat` is the first line of `/proc/stat`, `none` when
`getline` fails. -/
def readTotalJiffies (stat : Option (List Char)) : Nat :=
  match stat with
  | none => 0
  | some line => jiffiesOf (parseCpuLine line)

/-- The display block of lines 226-246: the overall CPU percentage and the statics after
it; `stat` is the first line of `/proc/stat`, `none` when `getline` fails. -/
def displayCpu (b : CpuBaseline) (stat : Option (List Char)) : ℚ × CpuBaseline :=
  match stat with
  | none => (0, b)
  | some line => (cpuUsageOf b (parseCpuLine line), nextBaseline (parseCpuLine line))

/-! ## Per-process records (lines 68-138) -/

/-- What the three per-process files hold when `readProcSnapshot` runs: the first line of
`stat` (`none`: the file does not open), the text of `statm` (`none`: it does not open),
and the lines of `status` (none at all when it does not open). -/
structure ProcFiles where
  stat : Option (List Char)
  statm : Option (List Char)
  status : List (List Char)

/-- Lines 96-99: `fstatm >> size >> rss` into two zero-initialised `unsigned long`. -/
def rssOfStatm (text : List Char) : Nat :=
  let r1 := (IStream.ofLine text).getU64 0
  (r1.2.getU64 0).1

/-- Lines 102-113: the first `VmRSS:` line of `status`, converted to pages; `val` is
declared without initialiser and holds `valInit` before the extraction; `pageSize` is the
positive value of `sysconf(_SC_PAGESIZE)`. -/
def rssOfStatus (pageSize valInit : Nat) : List (List Char) → Nat
  | [] => 0
  | line2 :: more =>
    if "VmRSS:".toList.isPrefixOf line2 then
      let r1 := (IStream.ofLine line2).getWord []
      let val := (r1.2.getU64 valInit).1
      (usub (uadd (val * 1024) pageSize) 1) / pageSize
    else rssOfStatus pageSize valInit more

/-- The function `readProcSnapshot`. -/
def readProcSnapshot (pageSize valInit : Nat) (files : ProcFiles) : Except Exn ProcSnapshot :=
  let snap : ProcSnapshot := { totalTime := 0, rss := 0 }
  match files.stat with
  | none => Except.ok snap
  | some line =>
    match findChar '(' line, rfindChar ')' line with
    | some p1, some p2 =>
      if p2 ≤ p1 then Except.ok snap
      else
        match substrFrom line (p2 + 2) with
        | Except.error e => Except.error e
        | Except.ok rest =>
          match skipTokens 11 (IStream.ofLine rest) with
          | none => Except.ok snap
          | some ss =>
            let r1 := ss.getU64 0
            let r2 := r1.2.getU64 0
            if r2.2.failed then Except.ok snap
            else
              Except.ok
                { totalTime := uadd r1.1 r2.1,
                  rss := match files.statm with
                    | some text => rssOfStatm text
                    | none => rssOfStatus pageSize valInit files.status }
    | _, _ => Except.ok snap

/-- The name that lines 79-82 (and the fallback of `readProcName`, lines 131-134) cut out
of a stat line: the text between the first `(` and the last `)`. -/
def statComm (line : List Char) : Option (List Char) :=
  match findChar '(' line, rfindChar ')' line with
  | some p1, some p2 => if p2 > p1 then some (substrLen line (p1 + 1) (p2 - p1 - 1)) else none
  | _, _ => none

/-- Lines 185-188: the filling of `curProc`, one `readProcSnapshot` per listed PID; an
exception thrown by one of the reads ends the sampling. `files pid` and `valInit pid` are
what the read of `pid` sees. -/
def sampleProcs (pageSize : Nat) (valInit : Int → Nat) (files : Int → ProcFiles) :
    List Int → ProcMap → Except Exn ProcMap
  | [], m => Except.ok m
  | pid :: rest, m =>
    match readProcSnapshot pageSize (valInit pid) (files pid) with
    | Except.error e => Except.error e
    | Except.ok s => sampleProcs pageSize valInit files rest (m.set pid s)

/-! ## The command handler (lines 280-307) -/

/-- What the handler does to the outside world. -/
inductive Action where
  | kill (pid : Int)
  | sentSigterm (pid : Int)
  | perror
  | sleep (ms : Nat)
  | invalidPid
  | unknownCommand
  deriving DecidableEq, Repr

/-- How control leaves the input branch of the loop body. -/
inductive Flow where
  | fallThrough
  | continueLoop
  | breakLoop
  deriving DecidableEq, Repr

/-- Lines 280-281: removal of trailing, then leading white space. -/
def trimLine (raw : List Char) : List Char :=
  ((raw.reverse.dropWhile isSpace).reverse).dropWhile isSpace

/-- Lines 280-307: the handling of a line read from standard input. `pid` is declared
without initialiser and holds `pidInit` before the extraction; `killOk` tells whether
`kill` returns `0`. -/
def handleLine (raw : List Char) (pidInit : Int) (killOk : Bool) : List Action × Flow :=
  match trimLine raw with
  | [] => ([], Flow.fallThrough)
  | c :: cs =>
    if c :: cs = ['q'] ∨ c :: cs = ['Q'] then ([], Flow.breakLoop)
    else if c = 'k' ∨ c = 'K' then
      let r1 := (IStream.ofLine (c :: cs)).getWord []
      let pid := (r1.2.getInt pidInit).1
      if pid > 0 then
        ([Action.kill pid, if killOk then Action.sentSigterm pid else Action.perror,
          Action.sleep 300], Flow.fallThrough)
      else ([Action.invalidPid], Flow.fallThrough)
    else if c :: cs = ['r'] ∨ c :: cs = ['R'] then ([], Flow.fallThrough)
    else ([Action.unknownCommand], Flow.fallThrough)

/-! ## The main loop (lines 166-315) -/

/-- What the wait of lines 268-272 ends with. -/
inductive WaitEvent where
  | noInput
  | unreadable
  | line (l : List Char)
  deriving DecidableEq, Repr

/-- The variables that live across iterations: `prevProc`, `prevTotal`, the statics of the
display block, and `running`. -/
structure LoopState where
  prevProc : ProcMap
  prevTotal : Nat
  base : CpuBaseline
  running : Bool

/-- What one iteration reads from its environment: the `/proc/stat` line seen by
`readTotalJiffies`, the map filled by lines 185-188, the two memory totals, the process
names, the `/proc/stat` line seen by the display block, the outcome of the wait, and the
two values the handler depends on. -/
structure Readings where
  stat1 : Option (List Char)
  curProc : ProcMap
  totKB : Nat
  availKB2 : Nat
  names : Int → List Char
  stat2 : Option (List Char)
  event : WaitEvent
  pidInit : Int
  killOk : Bool

/-- What one iteration shows and does. -/
structure Frame where
  totalDelta : Nat
  usedKB : Nat
  rows : List ProcInfo
  cpuUsage : ℚ
  actions : List Action

/-- Lines 166-172: the state before the first iteration; `stat0` is the `/proc/stat` line
read at start-up. -/
def initState (stat0 : Option (List Char)) : LoopState :=
  { prevProc := [], prevTotal := readTotalJiffies stat0,
    base := { prevTotal2 := 0, prevIdle2 := 0 }, running := true }

/-- Lines 269-310: the actions of the input branch and how control leaves it. -/
def handleEvent (r : Readings) : List Action × Flow :=
  match r.event with
  | WaitEvent.noInput => ([], Flow.fallThrough)
  | WaitEvent.unreadable => ([], Flow.continueLoop)
  | WaitEvent.line l => handleLine l r.pidInit r.killOk

/-- The frame one iteration of the loop body computes (lines 181-264 and the actions of
the input branch). -/
def frameOf (pageSize : Nat) (st : LoopState) (r : Readings) : Frame :=
  let totalJ := readTotalJiffies r.stat1
  let totalDelta := totalDeltaOf totalJ st.prevTotal
  { totalDelta := totalDelta,
    usedKB := usedKB r.totKB r.availKB2,
    rows := sortProcs (buildRows st.prevProc totalDelta pageSize r.totKB r.names r.curProc),
    cpuUsage := (displayCpu st.base r.stat2).1,
    actions := (handleEvent r).1 }

/-- The state one iteration of the loop body leaves (lines 181-315): `continue` and `break`
both skip the update of lines 313-314, `break` after clearing `running`. -/
def stepState (st : LoopState) (r : Readings) : LoopState :=
  let base := (displayCpu st.base r.stat2).2
  match (handleEvent r).2 with
  | Flow.fallThrough =>
    { prevProc := r.curProc, prevTotal := readTotalJiffies r.stat1, base := base,
      running := st.running }
  | Flow.continueLoop =>
    { prevProc := st.prevProc, prevTotal := st.prevTotal, base := base, running := st.running }
  | Flow.breakLoop =>
    { prevProc := st.prevProc, prevTotal := st.prevTotal, base := base, running := false }

/-- The denominator of the overall CPU percentage in an iteration: `totalDiff2` of the
sample the display block parses (`none` when its `getline` fails). -/
def overallDelta (st : LoopState) (r : Readings) : Option Nat :=
  r.stat2.map (fun line => totalDiff2 st.base (parseCpuLine line))

/-! ## Well-formed records and arguments, as the claims describe them -/

/-- The character of a decimal digit `d < 10`. -/
def digitChar (d : Nat) : Char := Char.ofNat (48 + d)

/-- The decimal numeral of `n`, as the kernel prints a counter. -/
def decimal (n : Nat) : List Char :=
  if n = 0 then ['0'] else (Nat.digits 10 n).reverse.map digitChar

/-- A stat record `pid (name) f3 ... f13 utime stime tail`: every field after the name is
preceded by one space; `tail` is whatever follows `stime`. -/
def statRecord (pid name : List Char) (fields : List (List Char)) (utime stime : Nat)
    (tail : List Char) : List Char :=
  pid ++ ' ' :: '(' :: name ++ ')' ::
    ((fields ++ [decimal utime, decimal stime]).flatMap (fun f => ' ' :: f) ++ tail)

/-- A word of a record: not empty, free of white space and of `)`. -/
def IsField (f : List Char) : Prop :=
  f ≠ [] ∧ ∀ c ∈ f, isSpace c = false ∧ c ≠ ')'

instance IsField.dec (f : List Char) : Decidable (IsField f) :=
  inferInstanceAs (Decidable (f ≠ [] ∧ ∀ c ∈ f, isSpace c = false ∧ c ≠ ')'))

/-- Whether a run of characters starts with decimal digits that are not all `0`. -/
def hasPositiveDigits (s : List Char) : Bool :=
  (s.takeWhile isDigit).any (fun c => decide (c ≠ '0'))

/-- Whether a PID argument starts with a positive decimal number, after an optional `+`. -/
def startsPositive (arg : List Char) : Bool :=
  match arg with
  | [] => false
  | c :: cs => if c = '+' then hasPositiveDigits cs else hasPositiveDigits (c :: cs)

/-- The decimal digits a PID argument starts with, after an optional `+`. -/
def leadingDigits (arg : List Char) : List Char :=
  match arg with
  | [] => []
  | c :: cs => if c = '+' then cs.takeWhile isDigit else (c :: cs).takeWhile isDigit

/-- The PID signalled for an argument that starts with a positive decimal number: that
number, or the largest `int` when the number does not fit an `int`. -/
def signalledPid (arg : List Char) : Int :=
  min (digitsVal (leadingDigits arg) : Int) INT_MAX

/-! ## Arithmetic helpers -/

theorem usub_self (a : Nat) : usub a a = 0 := by
  unfold usub U64
  omega

theorem usub_of_le {a b : Nat} (ha : a < U64) (hb : b ≤ a) : usub a b = a - b := by
  unfold usub
  unfold U64 at *
  omega

theorem totalDeltaOf_eq_max (totalJ prevTotal : Nat) :
    totalDeltaOf totalJ prevTotal = max 1 (usub totalJ prevTotal) := by
  unfold totalDeltaOf
  split_ifs with h
  · rw [h]; rfl
  · omega

theorem jiffiesOf_eq_total2 (s : CpuSample) : jiffiesOf s = total2 s := by
  unfold jiffiesOf total2 idleAll nonIdle uadd U64
  omega

theorem total2_eq_sum {s : CpuSample} (h : s.sum < U64) : total2 s = s.sum := by
  unfold CpuSample.sum at *
  unfold total2 idleAll nonIdle uadd
  unfold U64 at *
  omega

theorem idleAll_eq {s : CpuSample} (h : s.sum < U64) : idleAll s = s.idle + s.iowait := by
  unfold CpuSample.sum at *
  unfold idleAll uadd
  unfold U64 at *
  omega

/-! ## Maps -/

theorem ProcMap.find_of_mem {m : ProcMap} (hwf : m.WellFormed) {pid : Int} {v : ProcSnapshot}
    (hmem : (pid, v) ∈ m) : m.find pid = some v := by
  induction m with
  | nil => cases hmem
  | cons kv rest ih =>
    obtain ⟨k, w⟩ := kv
    have hnd : k ∉ rest.map Prod.fst ∧ (rest.map Prod.fst).Nodup := by
      simpa [ProcMap.WellFormed] using hwf
    rcases List.mem_cons.mp hmem with heq | hin
    · cases heq
      simp [ProcMap.find]
    · have hne : k ≠ pid := by
        intro hk
        apply hnd.1
        rw [hk]
        exact List.mem_map.mpr ⟨(pid, v), hin, rfl⟩
      simp only [ProcMap.find, if_neg hne]
      exact ih hnd.2 hin

/-! ## Rows -/

theorem cpuPerc_eq_zero_of_delta {prevProc : ProcMap} {pid : Int} {cur : ProcSnapshot}
    (totalDelta : Nat) (h : procDelta cur (prevSnapshot prevProc pid) = 0) :
    cpuPerc prevProc totalDelta pid cur = 0 := by
  unfold cpuPerc
  rw [h]
  simp

theorem mem_buildRows {prevProc : ProcMap} {totalDelta pageSize totKB : Nat}
    {names : Int → List Char} {m : ProcMap} {row : ProcInfo}
    (h : row ∈ buildRows prevProc totalDelta pageSize totKB names m) :
    ∃ cur, (row.pid, cur) ∈ m ∧ row.cpuPercent = cpuPerc prevProc totalDelta row.pid cur := by
  induction m with
  | nil => simp [buildRows] at h
  | cons kv rest ih =>
    obtain ⟨k, w⟩ := kv
    unfold buildRows at h
    split_ifs at h with hn
    · obtain ⟨cur, hc, he⟩ := ih h
      exact ⟨cur, List.mem_cons_of_mem _ hc, he⟩
    · rcases List.mem_cons.mp h with heq | hin
      · subst heq
        exact ⟨w, List.mem_cons_self _ _, rfl⟩
      · obtain ⟨cur, hc, he⟩ := ih hin
        exact ⟨cur, List.mem_cons_of_mem _ hc, he⟩

/-! ## Sorting -/

theorem perm_insertRow (x : ProcInfo) (l : List ProcInfo) : (insertRow x l).Perm (x :: l) := by
  induction l with
  | nil => exact List.Perm.refl _
  | cons y ys ih =>
    unfold insertRow
    split_ifs
    · exact List.Perm.refl _
    · exact (ih.cons y).trans (List.Perm.swap x y ys)

theorem perm_sortProcs (l : List ProcInfo) : (sortProcs l).Perm l := by
  induction l with
  | nil => exact List.Perm.refl _
  | cons x xs ih =>
    unfold sortProcs
    exact (perm_insertRow x _).trans (ih.cons x)

theorem rowsOrdered_of_not_before {a b : ProcInfo} (h : procBefore b a = false) :
    RowsOrdered a b := by
  unfold procBefore at h
  unfold RowsOrdered
  split_ifs at h with he
  · have hm : ¬ b.memPercent > a.memPercent := by simpa using h
    exact ⟨le_of_eq he, fun _ => not_lt.mp hm⟩
  · have hc : ¬ b.cpuPercent > a.cpuPercent := by simpa using h
    exact ⟨not_lt.mp hc, fun heq => absurd heq.symm he⟩

theorem rowsOrdered_of_before {a b : ProcInfo} (h : procBefore a b = true) :
    RowsOrdered a b := by
  unfold procBefore at h
  unfold RowsOrdered
  split_ifs at h with he
  · have hm : a.memPercent > b.memPercent := by simpa using h
    exact ⟨le_of_eq he.symm, fun _ => le_of_lt hm⟩
  · have hc : a.cpuPercent > b.cpuPercent := by simpa using h
    exact ⟨le_of_lt hc, fun heq => absurd heq he⟩

theorem RowsOrdered.trans {a b c : ProcInfo} (hab : RowsOrdered a b) (hbc : RowsOrdered b c) :
    RowsOrdered a c := by
  unfold RowsOrdered at *
  refine ⟨le_trans hbc.1 hab.1, fun hac => ?_⟩
  have h1 : a.cpuPercent = b.cpuPercent := le_antisymm (hac ▸ hbc.1) hab.1
  have h2 : b.cpuPercent = c.cpuPercent := h1 ▸ hac
  exact le_trans (hbc.2 h2) (hab.2 h1)

theorem pairwise_insertRow (x : ProcInfo) {l : List ProcInfo}
    (hl : l.Pairwise RowsOrdered) : (insertRow x l).Pairwise RowsOrdered := by
  induction l with
  | nil => simp [insertRow]
  | cons y ys ih =>
    unfold insertRow
    rw [List.pairwise_cons] at hl
    split_ifs with hb
    · have hxy : RowsOrdered x y := rowsOrdered_of_before hb
      refine List.pairwise_cons.mpr ⟨?_, List.pairwise_cons.mpr hl⟩
      intro z hz
      rcases List.mem_cons.mp hz with rfl | hz
      · exact hxy
      · exact hxy.trans (hl.1 z hz)
    · have hyx : RowsOrdered y x := rowsOrdered_of_not_before (by simpa using hb)
      refine List.pairwise_cons.mpr ⟨?_, ih hl.2⟩
      intro z hz
      rcases List.mem_cons.mp ((perm_insertRow x ys).mem_iff.mp hz) with rfl | hz
      · exact hyx
      · exact hl.1 z hz

theorem pairwise_sortProcs (l : List ProcInfo) : (sortProcs l).Pairwise RowsOrdered := by
  induction l with
  | nil => simp [sortProcs]
  | cons x xs ih =>
    unfold sortProcs
    exact pairwise_insertRow x ih

/-! ## Claims about the estimator, the sort and the loop -/

/-- C7: for unsigned 64-bit totals the used-memory value is `max(0, totalKB - availableKB)`;
it is `700` for `(1000, 300)` and `0` for `(1000, 1200)`. -/
theorem usedKB_eq_max (totKB availKB : Nat) (ht : totKB < U64) (_ha : availKB < U64) :
    ((usedKB totKB availKB : Nat) : Int) = max 0 ((totKB : Int) - (availKB : Int))
      ∧ usedKB 1000 300 = 700 ∧ usedKB 1000 1200 = 0 := by
  refine ⟨?_, by decide, by decide⟩
  unfold usedKB
  split_ifs with h
  · rw [usub_of_le ht (le_of_lt h)]
    omega
  · have h0 : (totKB : Int) - (availKB : Int) ≤ 0 := by omega
    simp [max_eq_left h0]

/-- C7, at a concrete pair of totals. -/
theorem usedKB_eq_max_witness :
    (5000 : Nat) < U64 ∧ (1234 : Nat) < U64
      ∧ (((usedKB 5000 1234 : Nat) : Int) = max 0 ((5000 : Int) - (1234 : Int))
        ∧ usedKB 1000 300 = 700 ∧ usedKB 1000 1200 = 0) :=
  ⟨by decide, by decide, usedKB_eq_max 5000 1234 (by decide) (by decide)⟩

/-- C1 (as stated, refuted): with the baseline `(10, 0)` and a sample whose only ticks are
`5` idle ones, the total has gone back by `5`; the formula gives `200`, the display block,
whose differences wrap around to `2^64 - 10` over `2^64 - 5`, gives at most `100`. -/
theorem cpuUsageOf_ne_spec_when_counters_regress :
    specCpuUsage { prevTotal2 := 10, prevIdle2 := 0 }
        { user := 0, nice := 0, system := 0, idle := 5, iowait := 0, irq := 0, softirq := 0,
          steal := 0 } = 200
      ∧ cpuUsageOf { prevTotal2 := 10, prevIdle2 := 0 }
        { user := 0, nice := 0, system := 0, idle := 5, iowait := 0, irq := 0, softirq := 0,
          steal := 0 } ≤ 100 := by
  constructor
  · norm_num [specCpuUsage, CpuSample.sum]
  · norm_num [cpuUsageOf, totalDiff2, idleDiff2, total2, idleAll, nonIdle, uadd, usub, U64]

/-- C1 (amended): whenever the eight counters sum to less than `2^64`, the current total is
not below the stored previous total, and the busy delta `totalDelta - idleDelta` lies in
`[0, 2^64)` (as it does when no counter has gone backwards), the overall CPU percentage of
the display block equals `100 * (totalDelta - idleDelta) / totalDelta`, guarded to `0`; and
for every baseline and sample a total delta of `0` gives exactly `0`. -/
theorem cpuUsageOf_eq_spec (b : CpuBaseline) (s : CpuSample)
    (hfit : s.sum < U64)
    (hbase : b.prevIdle2 < U64)
    (htot : b.prevTotal2 ≤ s.sum)
    (hlo : ((s.idle + s.iowait : Nat) : Int) - (b.prevIdle2 : Int)
        ≤ (s.sum : Int) - (b.prevTotal2 : Int))
    (hhi : (s.sum : Int) - (b.prevTotal2 : Int)
        - (((s.idle + s.iowait : Nat) : Int) - (b.prevIdle2 : Int)) < (U64 : Int)) :
    cpuUsageOf b s = specCpuUsage b s
      ∧ ∀ (b0 : CpuBaseline) (s0 : CpuSample),
          (s0.sum : Int) - (b0.prevTotal2 : Int) = 0 → cpuUsageOf b0 s0 = 0 := by
  constructor
  · have hT : totalDiff2 b s = s.sum - b.prevTotal2 := by
      unfold totalDiff2
      rw [total2_eq_sum hfit]
      exact usub_of_le hfit htot
    have hI : idleDiff2 b s = usub (s.idle + s.iowait) b.prevIdle2 := by
      unfold idleDiff2
      rw [idleAll_eq hfit]
    have hN : ((usub (totalDiff2 b s) (idleDiff2 b s) : Nat) : Int)
        = (s.sum : Int) - (b.prevTotal2 : Int)
          - (((s.idle + s.iowait : Nat) : Int) - (b.prevIdle2 : Int)) := by
      rw [hT, hI]
      unfold usub
      unfold CpuSample.sum at *
      unfold U64 at *
      push_cast at *
      omega
    have hD : ((s.sum - b.prevTotal2 : Nat) : Int) = (s.sum : Int) - (b.prevTotal2 : Int) := by
      omega
    unfold cpuUsageOf specCpuUsage
    have hz : (totalDiff2 b s = 0) ↔ ((s.sum : Int) - (b.prevTotal2 : Int) = 0) := by
      rw [hT]
      omega
    by_cases h0 : totalDiff2 b s = 0
    · simp [h0, hz.mp h0]
    · have h0' : ¬ ((s.sum : Int) - (b.prevTotal2 : Int) = 0) := fun h => h0 (hz.mpr h)
      simp only [h0, h0', if_false]
      rw [← Int.cast_natCast (usub (totalDiff2 b s) (idleDiff2 b s)), hN,
        ← Int.cast_natCast (totalDiff2 b s), hT, hD]
  · intro b0 s0 h
    have hT : totalDiff2 b0 s0 = 0 := by
      have hs : s0.sum = b0.prevTotal2 := by omega
      unfold totalDiff2 total2 idleAll nonIdle uadd usub
      unfold CpuSample.sum at hs
      unfold U64
      omega
    unfold cpuUsageOf
    simp [hT]

/-- C1 (amended), at the baseline `(100, 40)` and a sample with total `150`, idle+iowait `60`. -/
theorem cpuUsageOf_eq_spec_witness :
    cpuUsageOf { prevTotal2 := 100, prevIdle2 := 40 }
        { user := 50, nice := 10, system := 20, idle := 55, iowait := 5, irq := 4,
          softirq := 3, steal := 3 }
      = specCpuUsage { prevTotal2 := 100, prevIdle2 := 40 }
        { user := 50, nice := 10, system := 20, idle := 55, iowait := 5, irq := 4,
          softirq := 3, steal := 3 } :=
  (cpuUsageOf_eq_spec { prevTotal2 := 100, prevIdle2 := 40 }
    { user := 50, nice := 10, system := 20, idle := 55, iowait := 5, irq := 4,
      softirq := 3, steal := 3 }
    (by decide) (by decide) (by decide) (by decide) (by decide)).1

/-- C2: a process found in the previous map whose current cumulative ticks are below the
previous ones gets a CPU percentage of exactly `0`, whatever the system tick delta. -/
theorem cpuPerc_zero_of_ticks_decreased (prevProc : ProcMap) (pid : Int)
    (cur prev : ProcSnapshot) (totalDelta : Nat)
    (hprev : prevProc.find pid = some prev)
    (hlt : cur.totalTime < prev.totalTime) :
    cpuPerc prevProc totalDelta pid cur = 0 := by
  apply cpuPerc_eq_zero_of_delta
  unfold prevSnapshot procDelta
  rw [hprev]
  simp [Nat.not_le.mpr hlt]

/-- C2, for PID 42 going from 900 ticks back to 100 over a delta of 7. -/
theorem cpuPerc_zero_of_ticks_decreased_witness :
    cpuPerc [(42, { totalTime := 900, rss := 3 })] 7 42 { totalTime := 100, rss := 3 } = 0 :=
  cpuPerc_zero_of_ticks_decreased [(42, { totalTime := 900, rss := 3 })] 42
    { totalTime := 100, rss := 3 } { totalTime := 900, rss := 3 } 7 (by decide) (by decide)

/-- C3: the sorted list is a permutation of the input, CPU% never increases from a row to
the next, and adjacent rows with equal CPU% have non-increasing MEM%. -/
theorem sortProcs_perm_ordered (procs : List ProcInfo) :
    (sortProcs procs).Perm procs ∧ (sortProcs procs).Chain' RowsOrdered :=
  ⟨perm_sortProcs procs, List.Pairwise.chain' (pairwise_sortProcs procs)⟩

/-- C8: when the previous state holds the very snapshot that the iteration reads again
(same process map, baseline taken from the same aggregate line), every process of the map gets
`0%` CPU, every displayed row shows `0%`, and the overall CPU percentage is `0`. -/
theorem identical_snapshots_give_zero (pageSize : Nat) (st : LoopState) (r : Readings)
    (hwf : r.curProc.WellFormed)
    (hmap : st.prevProc = r.curProc)
    (hbase : ∀ l, r.stat1 = some l → st.base = nextBaseline (parseCpuLine l))
    (hsame : r.stat2 = r.stat1) :
    (∀ kv ∈ r.curProc,
        cpuPerc st.prevProc (frameOf pageSize st r).totalDelta kv.1 kv.2 = 0)
      ∧ (∀ row ∈ (frameOf pageSize st r).rows, row.cpuPercent = 0)
      ∧ (frameOf pageSize st r).cpuUsage = 0 := by
  have hproc : ∀ (d : Nat) (pid : Int) (cur : ProcSnapshot), (pid, cur) ∈ r.curProc →
      cpuPerc st.prevProc d pid cur = 0 := by
    intro d pid cur hmem
    apply cpuPerc_eq_zero_of_delta
    unfold prevSnapshot procDelta
    rw [hmap, ProcMap.find_of_mem hwf hmem]
    simp [usub_self]
  refine ⟨fun kv hkv => hproc _ kv.1 kv.2 hkv, ?_, ?_⟩
  · intro row hrow
    have hrow' := (perm_sortProcs _).mem_iff.mp hrow
    obtain ⟨cur, hmem, he⟩ := mem_buildRows hrow'
    rw [he]
    exact hproc _ _ _ hmem
  · show (displayCpu st.base r.stat2).1 = 0
    rw [hsame]
    cases hl : r.stat1 with
    | none => rfl
    | some l =>
      rw [hbase l hl]
      simp [displayCpu, cpuUsageOf, totalDiff2, nextBaseline, usub_self]

/-- C8, for a two-process snapshot. -/
theorem identical_snapshots_give_zero_witness :
    (frameOf 4096
      { prevProc := [(1, { totalTime := 50, rss := 10 }), (7, { totalTime := 8, rss := 2 })],
        prevTotal := readTotalJiffies (some "cpu 10 20 30 40 50 60 70 80".toList),
        base := nextBaseline (parseCpuLine "cpu 10 20 30 40 50 60 70 80".toList),
        running := true }
      { stat1 := some "cpu 10 20 30 40 50 60 70 80".toList,
        curProc := [(1, { totalTime := 50, rss := 10 }), (7, { totalTime := 8, rss := 2 })],
        totKB := 1000, availKB2 := 300, names := fun _ => ['x'],
        stat2 := some "cpu 10 20 30 40 50 60 70 80".toList,
        event := WaitEvent.noInput, pidInit := 0, killOk := true }).cpuUsage = 0 :=
  (identical_snapshots_give_zero 4096
    { prevProc := [(1, { totalTime := 50, rss := 10 }), (7, { totalTime := 8, rss := 2 })],
      prevTotal := readTotalJiffies (some "cpu 10 20 30 40 50 60 70 80".toList),
      base := nextBaseline (parseCpuLine "cpu 10 20 30 40 50 60 70 80".toList),
      running := true }
    { stat1 := some "cpu 10 20 30 40 50 60 70 80".toList,
      curProc := [(1, { totalTime := 50, rss := 10 }), (7, { totalTime := 8, rss := 2 })],
      totKB := 1000, availKB2 := 300, names := fun _ => ['x'],
      stat2 := some "cpu 10 20 30 40 50 60 70 80".toList,
      event := WaitEvent.noInput, pidInit := 0, killOk := true }
    (by decide) rfl (fun l hl => by cases hl; rfl) rfl).2.2

/-! ## The loop state across iterations -/

theorem stepState_of_fallThrough (st : LoopState) (r : Readings)
    (h : (handleEvent r).2 = Flow.fallThrough) :
    (stepState st r).prevProc = r.curProc
      ∧ (stepState st r).prevTotal = readTotalJiffies r.stat1
      ∧ (stepState st r).running = st.running := by
  unfold stepState
  rw [h]
  exact ⟨rfl, rfl, rfl⟩

theorem stepState_of_unreadable (st : LoopState) (r : Readings)
    (h : r.event = WaitEvent.unreadable) :
    (stepState st r).prevProc = st.prevProc
      ∧ (stepState st r).prevTotal = st.prevTotal
      ∧ (stepState st r).running = st.running := by
  have hf : (handleEvent r).2 = Flow.continueLoop := by
    unfold handleEvent
    rw [h]
  unfold stepState
  rw [hf]
  exact ⟨rfl, rfl, rfl⟩

theorem handleLine_flow (raw : List Char) (pidInit : Int) (killOk : Bool) :
    (handleLine raw pidInit killOk).2 = Flow.fallThrough
      ∨ (handleLine raw pidInit killOk).2 = Flow.breakLoop := by
  unfold handleLine
  split
  · exact Or.inl rfl
  · dsimp only
    split_ifs <;> simp

theorem stepState_base (st : LoopState) (r : Readings) :
    (stepState st r).base = (displayCpu st.base r.stat2).2 := by
  unfold stepState
  split <;> rfl

/-- C9 (the divergence): start-up read a total of `1`; the iteration reads a total of `2`
and samples one process, then its wait ends with input that cannot be read as a line.
The loop goes on (`running` stays set) but the next iteration starts with the empty
previous map and the previous total `1`, not with what this iteration sampled. -/
theorem unreadable_input_skips_baseline_update :
    (stepState (initState (some "cpu 1 0 0 0 0 0 0 0".toList))
        { stat1 := some "cpu 2 0 0 0 0 0 0 0".toList,
          curProc := [(1, { totalTime := 5, rss := 0 })],
          totKB := 1000, availKB2 := 300, names := fun _ => ['x'],
          stat2 := some "cpu 2 0 0 0 0 0 0 0".toList,
          event := WaitEvent.unreadable, pidInit := 0, killOk := true }).running = true
      ∧ (stepState (initState (some "cpu 1 0 0 0 0 0 0 0".toList))
        { stat1 := some "cpu 2 0 0 0 0 0 0 0".toList,
          curProc := [(1, { totalTime := 5, rss := 0 })],
          totKB := 1000, availKB2 := 300, names := fun _ => ['x'],
          stat2 := some "cpu 2 0 0 0 0 0 0 0".toList,
          event := WaitEvent.unreadable, pidInit := 0, killOk := true }).prevProc = []
      ∧ (stepState (initState (some "cpu 1 0 0 0 0 0 0 0".toList))
        { stat1 := some "cpu 2 0 0 0 0 0 0 0".toList,
          curProc := [(1, { totalTime := 5, rss := 0 })],
          totKB := 1000, availKB2 := 300, names := fun _ => ['x'],
          stat2 := some "cpu 2 0 0 0 0 0 0 0".toList,
          event := WaitEvent.unreadable, pidInit := 0, killOk := true }).prevTotal = 1
      ∧ readTotalJiffies (some "cpu 2 0 0 0 0 0 0 0".toList) = 2 := by
  refine ⟨rfl, rfl, ?_, ?_⟩ <;> decide

/-- C10 (as stated, refuted): in the first iteration after a start-up read of `1000` ticks,
with both reads of the iteration returning `1000` ticks again, the per-process denominator
is `1` while the overall estimator, whose baseline starts at `0`, uses `1000`. -/
theorem first_iteration_denominators_differ :
    (frameOf 4096 (initState (some "cpu 400 0 100 500 0 0 0 0".toList))
        { stat1 := some "cpu 400 0 100 500 0 0 0 0".toList,
          curProc := [(1, { totalTime := 5, rss := 0 })],
          totKB := 1000, availKB2 := 300, names := fun _ => ['x'],
          stat2 := some "cpu 400 0 100 500 0 0 0 0".toList,
          event := WaitEvent.noInput, pidInit := 0, killOk := true }).totalDelta = 1
      ∧ overallDelta (initState (some "cpu 400 0 100 500 0 0 0 0".toList))
        { stat1 := some "cpu 400 0 100 500 0 0 0 0".toList,
          curProc := [(1, { totalTime := 5, rss := 0 })],
          totKB := 1000, availKB2 := 300, names := fun _ => ['x'],
          stat2 := some "cpu 400 0 100 500 0 0 0 0".toList,
          event := WaitEvent.noInput, pidInit := 0, killOk := true } = some 1000 := by
  constructor <;> decide

/-- C10 (amended): in every iteration that follows an iteration which reached the baseline
update of lines 313-314, both iterations reading the same aggregate line twice, the
per-process denominator equals `max(1, totalDelta)` of the overall estimator. -/
theorem denominators_agree_after_completed_iteration (pageSize : Nat) (st : LoopState)
    (r1 r2 : Readings) (l1 l2 : List Char)
    (h1 : r1.stat1 = some l1) (h1' : r1.stat2 = some l1)
    (hflow : (handleEvent r1).2 = Flow.fallThrough)
    (h2 : r2.stat1 = some l2) (h2' : r2.stat2 = some l2) :
    overallDelta (stepState st r1) r2
        = some (totalDiff2 (stepState st r1).base (parseCpuLine l2))
      ∧ (frameOf pageSize (stepState st r1) r2).totalDelta
        = max 1 (totalDiff2 (stepState st r1).base (parseCpuLine l2)) := by
  constructor
  · unfold overallDelta
    rw [h2']
    rfl
  · show totalDeltaOf (readTotalJiffies r2.stat1) (stepState st r1).prevTotal = _
    rw [totalDeltaOf_eq_max, (stepState_of_fallThrough st r1 hflow).2.1, stepState_base,
      h1, h1', h2]
    simp only [readTotalJiffies, displayCpu, nextBaseline, totalDiff2, jiffiesOf_eq_total2]

/-- C10 (amended), for a second iteration that sees 30 more ticks than the first. -/
theorem denominators_agree_after_completed_iteration_witness :
    (frameOf 4096
        (stepState (initState (some "cpu 400 0 100 500 0 0 0 0".toList))
          { stat1 := some "cpu 400 0 100 500 0 0 0 0".toList,
            curProc := [(1, { totalTime := 5, rss := 0 })],
            totKB := 1000, availKB2 := 300, names := fun _ => ['x'],
            stat2 := some "cpu 400 0 100 500 0 0 0 0".toList,
            event := WaitEvent.noInput, pidInit := 0, killOk := true })
        { stat1 := some "cpu 410 0 100 520 0 0 0 0".toList,
          curProc := [(1, { totalTime := 9, rss := 0 })],
          totKB := 1000, availKB2 := 300, names := fun _ => ['x'],
          stat2 := some "cpu 410 0 100 520 0 0 0 0".toList,
          event := WaitEvent.noInput, pidInit := 0, killOk := true }).totalDelta
      = max 1 (totalDiff2
          (stepState (initState (some "cpu 400 0 100 500 0 0 0 0".toList))
            { stat1 := some "cpu 400 0 100 500 0 0 0 0".toList,
              curProc := [(1, { totalTime := 5, rss := 0 })],
              totKB := 1000, availKB2 := 300, names := fun _ => ['x'],
              stat2 := some "cpu 400 0 100 500 0 0 0 0".toList,
              event := WaitEvent.noInput, pidInit := 0, killOk := true }).base
          (parseCpuLine "cpu 410 0 100 520 0 0 0 0".toList)) :=
  (denominators_agree_after_completed_iteration 4096
    (initState (some "cpu 400 0 100 500 0 0 0 0".toList))
    { stat1 := some "cpu 400 0 100 500 0 0 0 0".toList,
      curProc := [(1, { totalTime := 5, rss := 0 })],
      totKB := 1000, availKB2 := 300, names := fun _ => ['x'],
      stat2 := some "cpu 400 0 100 500 0 0 0 0".toList,
      event := WaitEvent.noInput, pidInit := 0, killOk := true }
    { stat1 := some "cpu 410 0 100 520 0 0 0 0".toList,
      curProc := [(1, { totalTime := 9, rss := 0 })],
      totKB := 1000, availKB2 := 300, names := fun _ => ['x'],
      stat2 := some "cpu 410 0 100 520 0 0 0 0".toList,
      event := WaitEvent.noInput, pidInit := 0, killOk := true }
    "cpu 400 0 100 500 0 0 0 0".toList "cpu 410 0 100 520 0 0 0 0".toList
    rfl rfl rfl rfl rfl).2

/-! ## Characters and digit runs -/

theorem not_isDigit_of_isSpace {c : Char} (h : isSpace c = true) : isDigit c = false := by
  unfold isSpace at h
  unfold isDigit
  simp only [Bool.or_eq_true, Bool.and_eq_true, decide_eq_true_eq] at h
  simp only [Bool.and_eq_false_iff, decide_eq_false_iff_not]
  omega

theorem digitChar_toNat {d : Nat} (h : d < 10) : (digitChar d).toNat = 48 + d := by
  unfold digitChar
  interval_cases d <;> rfl

theorem isDigit_digitChar {d : Nat} (h : d < 10) : isDigit (digitChar d) = true := by
  unfold isDigit
  rw [digitChar_toNat h]
  simp only [Bool.and_eq_true, decide_eq_true_eq]
  omega

theorem digitVal_digitChar {d : Nat} (h : d < 10) : digitVal (digitChar d) = d := by
  unfold digitVal
  rw [digitChar_toNat h]
  omega

theorem isSpace_false_of_isDigit {c : Char} (h : isDigit c = true) : isSpace c = false := by
  cases hs : isSpace c with
  | false => rfl
  | true => rw [not_isDigit_of_isSpace hs] at h; cases h

theorem ne_paren_of_isDigit {c : Char} (h : isDigit c = true) : c ≠ ')' := by
  intro hc
  subst hc
  revert h
  decide

theorem ne_sign_of_isDigit {c : Char} (h : isDigit c = true) : c ≠ '-' ∧ c ≠ '+' := by
  constructor <;>
  · intro hc
    subst hc
    revert h
    decide

theorem digitsVal_foldl (ds : List Char) (acc : Nat) :
    ds.foldl (fun a c => 10 * a + digitVal c) acc = acc * 10 ^ ds.length + digitsVal ds := by
  induction ds generalizing acc with
  | nil => simp [digitsVal]
  | cons c cs ih =>
    unfold digitsVal
    simp only [List.foldl_cons, List.length_cons]
    rw [ih, ih (10 * 0 + digitVal c)]
    ring

theorem digitsVal_append_singleton (ds : List Char) (c : Char) :
    digitsVal (ds ++ [c]) = 10 * digitsVal ds + digitVal c := by
  unfold digitsVal
  simp [List.foldl_append]

theorem digitsVal_digits (n : Nat) :
    digitsVal ((Nat.digits 10 n).reverse.map digitChar) = n := by
  induction n using Nat.strong_induction_on with
  | _ n ih =>
    by_cases h0 : n = 0
    · subst h0
      simp [digitsVal]
    · have hpos : 0 < n := Nat.pos_of_ne_zero h0
      rw [Nat.digits_def' (by decide) hpos]
      simp only [List.reverse_cons, List.map_append, List.map_cons, List.map_nil]
      rw [digitsVal_append_singleton, ih (n / 10) (Nat.div_lt_self hpos (by decide)),
        digitVal_digitChar (Nat.mod_lt _ (by decide))]
      omega

theorem decimal_ne_nil (n : Nat) : decimal n ≠ [] := by
  unfold decimal
  split_ifs with h
  · simp
  · simpa using (Nat.digits_ne_nil_iff_ne_zero.mpr h)

theorem decimal_isDigit (n : Nat) : ∀ c ∈ decimal n, isDigit c = true := by
  intro c hc
  unfold decimal at hc
  split_ifs at hc with h
  · simp only [List.mem_singleton] at hc
    subst hc
    decide
  · simp only [List.mem_map, List.mem_reverse] at hc
    obtain ⟨d, hd, rfl⟩ := hc
    exact isDigit_digitChar (Nat.digits_lt_base (by decide) hd)

theorem digitsVal_decimal (n : Nat) : digitsVal (decimal n) = n := by
  unfold decimal
  split_ifs with h
  · subst h
    decide
  · exact digitsVal_digits n

theorem decimal_isField (n : Nat) : IsField (decimal n) :=
  ⟨decimal_ne_nil n, fun c hc =>
    ⟨isSpace_false_of_isDigit (decimal_isDigit n c hc), ne_paren_of_isDigit (decimal_isDigit n c hc)⟩⟩

/-! ## Lists of characters -/

theorem takeWhile_append_stop (p : Char → Bool) (a Y : List Char)
    (ha : ∀ x ∈ a, p x = true) (hY : ∀ y ∈ Y.head?, p y = false) :
    (a ++ Y).takeWhile p = a ∧ (a ++ Y).dropWhile p = Y := by
  induction a with
  | nil =>
    cases Y with
    | nil => simp
    | cons y ys =>
      have : p y = false := hY y (by simp)
      simp [List.takeWhile, List.dropWhile, this]
  | cons x xs ih =>
    have hx : p x = true := ha x (List.mem_cons_self _ _)
    have := ih (fun z hz => ha z (List.mem_cons_of_mem _ hz))
    simp [List.takeWhile, List.dropWhile, hx, this.1, this.2]

theorem findChar_append (c : Char) (p r : List Char) (hp : c ∉ p) :
    findChar c (p ++ c :: r) = some p.length := by
  induction p with
  | nil => simp [findChar]
  | cons x xs ih =>
    have hx : x ≠ c := fun h => hp (h ▸ List.mem_cons_self _ _)
    have := ih (fun h => hp (List.mem_cons_of_mem _ h))
    simp [findChar, hx, this]

theorem rfindChar_none (c : Char) (r : List Char) (hr : c ∉ r) : rfindChar c r = none := by
  induction r with
  | nil => rfl
  | cons x xs ih =>
    have hx : x ≠ c := fun h => hr (h ▸ List.mem_cons_self _ _)
    have := ih (fun h => hr (List.mem_cons_of_mem _ h))
    simp [rfindChar, hx, this]

theorem rfindChar_append (c : Char) (p r : List Char) (hr : c ∉ r) :
    rfindChar c (p ++ c :: r) = some p.length := by
  induction p with
  | nil => simp [rfindChar, rfindChar_none c r hr]
  | cons x xs ih => simp [rfindChar, ih]

/-! ## Stream extractions on well-formed input -/

theorem skipWs_append (ws X : List Char) (hws : ∀ c ∈ ws, isSpace c = true)
    (hX : ∀ y ∈ X.head?, isSpace y = false) : skipWs (ws ++ X) = X :=
  (takeWhile_append_stop isSpace ws X hws hX).2

theorem getWord_field (ws f Y old : List Char) (hws : ∀ c ∈ ws, isSpace c = true)
    (hf : f ≠ []) (hfc : ∀ c ∈ f, isSpace c = false)
    (hY : ∀ y ∈ Y.head?, isSpace y = true) :
    (IStream.ofLine (ws ++ (f ++ Y))).getWord old = (f, { buf := Y, failed := false }) := by
  have hhead : ∀ y ∈ (f ++ Y).head?, isSpace y = false := by
    cases f with
    | nil => exact absurd rfl hf
    | cons c cs =>
      intro y hy
      simp only [List.cons_append, List.head?_cons, Option.mem_def, Option.some.injEq] at hy
      subst hy
      exact hfc _ (List.mem_cons_self _ _)
  have hskip := skipWs_append ws (f ++ Y) hws hhead
  have hsplit := takeWhile_append_stop (fun x => !isSpace x) f Y
    (fun x hx => by simp [hfc x hx]) (fun y hy => by simp [hY y hy])
  unfold IStream.getWord IStream.ofLine
  simp only [hskip, Bool.false_eq_true, if_false]
  cases hfy : f ++ Y with
  | nil =>
    cases f with
    | nil => exact absurd rfl hf
    | cons c cs => cases hfy
  | cons c cs =>
    simp only
    rw [← hfy, hsplit.1, hsplit.2]

theorem skipTokens_fields (fs : List (List Char)) (Y : List Char)
    (hfs : ∀ f ∈ fs, IsField f) (hY : ∀ y ∈ Y.head?, isSpace y = true) :
    skipTokens fs.length (IStream.ofLine (fs.flatMap (fun f => ' ' :: f) ++ Y))
      = some { buf := Y, failed := false } := by
  induction fs with
  | nil => rfl
  | cons f rest ih =>
    have hf : IsField f := hfs f (List.mem_cons_self _ _)
    have hrest : ∀ g ∈ rest, IsField g := fun g hg => hfs g (List.mem_cons_of_mem _ hg)
    have hnext : ∀ y ∈ (rest.flatMap (fun f => ' ' :: f) ++ Y).head?, isSpace y = true := by
      cases rest with
      | nil => simpa using hY
      | cons g gs =>
        intro y hy
        simp only [List.flatMap_cons, List.cons_append, List.head?_cons, Option.mem_def,
          Option.some.injEq] at hy
        subst hy
        decide
    have hw := getWord_field [' '] f (rest.flatMap (fun f => ' ' :: f) ++ Y) []
      (fun c hc => by simp only [List.mem_singleton] at hc; subst hc; decide)
      hf.1 (fun c hc => (hf.2 c hc).1) hnext
    have hbuf : (f :: rest).flatMap (fun f => ' ' :: f) ++ Y
        = [' '] ++ (f ++ (rest.flatMap (fun f => ' ' :: f) ++ Y)) := by
      simp [List.flatMap_cons]
    rw [hbuf]
    simp only [List.length_cons, skipTokens, hw]
    exact ih hrest

theorem getU64_digits (ws ds Y : List Char) (old : Nat) (hws : ∀ c ∈ ws, isSpace c = true)
    (hne : ds ≠ []) (hds : ∀ c ∈ ds, isDigit c = true)
    (hY : ∀ y ∈ Y.head?, isDigit y = false) (hfit : digitsVal ds < U64) :
    (IStream.ofLine (ws ++ (ds ++ Y))).getU64 old
      = (digitsVal ds, { buf := Y, failed := false }) := by
  cases ds with
  | nil => exact absurd rfl hne
  | cons c cs =>
    have hc : isDigit c = true := hds c (List.mem_cons_self _ _)
    have hskip := skipWs_append ws (c :: cs ++ Y) hws (by
      intro y hy
      simp only [List.cons_append, List.head?_cons, Option.mem_def, Option.some.injEq] at hy
      subst hy
      exact isSpace_false_of_isDigit hc)
    have hsign : splitSign (c :: (cs ++ Y)) = (false, c :: (cs ++ Y)) := by
      unfold splitSign
      simp [(ne_sign_of_isDigit hc).1, (ne_sign_of_isDigit hc).2]
    have hsplit := takeWhile_append_stop isDigit (c :: cs) Y hds hY
    simp only [List.cons_append] at hsplit hskip
    unfold IStream.getU64 IStream.ofLine
    dsimp only
    rw [if_neg (by simp), List.cons_append, hskip]
    dsimp only
    rw [hsign]
    dsimp only
    rw [hsplit.1, hsplit.2, if_neg (by simp), if_neg (Nat.not_le.mpr hfit)]
    simp

/-! ## The stat record -/

theorem readProcSnapshot_ok_of_room (pageSize valInit : Nat) (files : ProcFiles)
    (hroom : ∀ line p2, files.stat = some line → rfindChar ')' line = some p2 →
      p2 + 2 ≤ line.length) :
    ∃ snap, readProcSnapshot pageSize valInit files = Except.ok snap := by
  unfold readProcSnapshot
  cases hs : files.stat with
  | none => exact ⟨_, rfl⟩
  | some line =>
    simp only
    cases h1 : findChar '(' line with
    | none => exact ⟨_, rfl⟩
    | some p1 =>
      cases h2 : rfindChar ')' line with
      | none => exact ⟨_, rfl⟩
      | some p2 =>
        simp only
        have hr := hroom line p2 hs h2
        split_ifs with hle
        · exact ⟨_, rfl⟩
        · have hsub : substrFrom line (p2 + 2) = Except.ok (line.drop (p2 + 2)) := by
            unfold substrFrom
            simp [Nat.not_lt.mpr hr]
          rw [hsub]
          simp only
          cases skipTokens 11 (IStream.ofLine (line.drop (p2 + 2))) with
          | none => exact ⟨_, rfl⟩
          | some ss =>
            simp only
            split_ifs
            · exact ⟨_, rfl⟩
            · exact ⟨_, rfl⟩

/-- C5 (the divergence): on the record `1 (a)`, which ends at the closing parenthesis of
the name, `readProcSnapshot` does not return the zero snapshot: `line.substr(p2+2)` is
asked for position `6` of a string of size `5` and throws `std::out_of_range`. -/
theorem readProcSnapshot_throws_on_record_ending_at_paren (pageSize valInit : Nat)
    (statm : Option (List Char)) (status : List (List Char)) :
    readProcSnapshot pageSize valInit
        { stat := some "1 (a)".toList, statm := statm, status := status }
      = Except.error Exn.outOfRange := by
  rfl

theorem skipTokens_skip_space (n : Nat) (c : Char) (X : List Char) (hc : isSpace c = true) :
    skipTokens (n + 1) (IStream.ofLine X) = skipTokens (n + 1) (IStream.ofLine (c :: X)) := by
  have hw : (IStream.ofLine (c :: X)).getWord [] = (IStream.ofLine X).getWord [] := by
    unfold IStream.getWord IStream.ofLine
    simp [skipWs, List.dropWhile, hc]
  simp only [skipTokens, hw]

theorem statRecord_shape (pid name : List Char) (fields : List (List Char))
    (utime stime : Nat) (tail : List Char) :
    statRecord pid name fields utime stime tail
      = (pid ++ [' ', '('] ++ name) ++ ')' ::
          (fields.flatMap (fun f => ' ' :: f)
            ++ ([' '] ++ (decimal utime ++ ([' '] ++ (decimal stime ++ tail))))) := by
  simp [statRecord, List.flatMap_append, List.flatMap_cons]

/-- C6: on a well-formed record `pid (name) f3 ... f13 utime stime tail` (any name, eleven
words without `)` between the name and the two times, a tail that is empty or starts with
white space and holds no `)`), the name is cut at the first `(` and the last `)`, exactly
the eleven words are skipped, and `totalTime` is `utime + stime` in 64-bit unsigned
arithmetic, which is `utime + stime` itself whenever that sum fits. -/
theorem readProcSnapshot_totalTime (pageSize valInit : Nat) (files : ProcFiles)
    (pid name tail : List Char) (fields : List (List Char)) (utime stime : Nat)
    (hstat : files.stat = some (statRecord pid name fields utime stime tail))
    (hpid : '(' ∉ pid)
    (hlen : fields.length = 11)
    (hfields : ∀ f ∈ fields, IsField f)
    (hu : utime < U64) (hs : stime < U64)
    (htail : ∀ c ∈ tail.head?, isSpace c = true)
    (htailp : ')' ∉ tail) :
    findChar '(' (statRecord pid name fields utime stime tail) = some (pid.length + 1)
      ∧ rfindChar ')' (statRecord pid name fields utime stime tail)
          = some (pid.length + 2 + name.length)
      ∧ statComm (statRecord pid name fields utime stime tail) = some name
      ∧ (∃ rss, readProcSnapshot pageSize valInit files
          = Except.ok { totalTime := (utime + stime) % U64, rss := rss })
      ∧ (utime + stime < U64 → ∃ rss, readProcSnapshot pageSize valInit files
          = Except.ok { totalTime := utime + stime, rss := rss }) := by
  -- the text after the closing parenthesis
  obtain ⟨Y2, hY2⟩ : ∃ Y2, Y2 = [' '] ++ (decimal stime ++ tail) := ⟨_, rfl⟩
  obtain ⟨Y, hY⟩ : ∃ Y, Y = [' '] ++ (decimal utime ++ Y2) := ⟨_, rfl⟩
  obtain ⟨R, hR⟩ : ∃ R, R = fields.flatMap (fun f => ' ' :: f) ++ Y := ⟨_, rfl⟩
  have hshape : statRecord pid name fields utime stime tail
      = (pid ++ [' ', '('] ++ name) ++ ')' :: R := by
    rw [statRecord_shape, hR, hY, hY2]
  have hspace : isSpace ' ' = true := by decide
  have hdig_paren : ∀ n, ')' ∉ decimal n := fun n h =>
    ne_paren_of_isDigit (decimal_isDigit n _ h) rfl
  have hY2p : ')' ∉ Y2 := by
    rw [hY2]
    simp only [List.mem_append, List.mem_singleton, not_or]
    exact ⟨by decide, hdig_paren stime, htailp⟩
  have hYp : ')' ∉ Y := by
    rw [hY]
    simp only [List.mem_append, List.mem_singleton, not_or]
    exact ⟨by decide, hdig_paren utime, hY2p⟩
  have hRp : ')' ∉ R := by
    rw [hR]
    simp only [List.mem_append, List.mem_flatMap, List.mem_cons, not_or, not_exists, not_and]
    refine ⟨fun f hf => ⟨by decide, fun hin => ((hfields f hf).2 _ hin).2 rfl⟩, hYp⟩
  -- the two positions
  have hfind : findChar '(' (statRecord pid name fields utime stime tail)
      = some (pid.length + 1) := by
    have e : statRecord pid name fields utime stime tail
        = (pid ++ [' ']) ++ '(' :: (name ++ ')' :: R) := by
      rw [hshape]; simp
    rw [e, findChar_append '(' (pid ++ [' ']) _ (by
      simp only [List.mem_append, List.mem_singleton, not_or]
      exact ⟨hpid, by decide⟩)]
    simp
  have hrfind : rfindChar ')' (statRecord pid name fields utime stime tail)
      = some (pid.length + 2 + name.length) := by
    rw [hshape, rfindChar_append ')' _ R hRp]
    simp only [List.length_append, List.length_cons, List.length_nil, Option.some.injEq]
  have hcomm : statComm (statRecord pid name fields utime stime tail) = some name := by
    unfold statComm
    rw [hfind, hrfind]
    have hgt : pid.length + 2 + name.length > pid.length + 1 := by omega
    simp only [hgt, if_true]
    have e : statRecord pid name fields utime stime tail
        = (pid ++ [' ', '(']) ++ (name ++ ')' :: R) := by
      rw [hshape]; simp
    have hn : pid.length + 2 + name.length - (pid.length + 1) - 1 = name.length := by omega
    unfold substrLen
    rw [e, List.drop_left' (by simp), hn, List.take_left' rfl]
  -- the remainder handed to the string stream
  obtain ⟨f1, frest, hf1⟩ : ∃ f1 frest, fields = f1 :: frest := by
    cases fields with
    | nil => simp at hlen
    | cons a b => exact ⟨a, b, rfl⟩
  obtain ⟨X, hX⟩ : ∃ X, R = ' ' :: X := by
    rw [hR, hf1]
    exact ⟨f1 ++ (frest.flatMap (fun f => ' ' :: f) ++ Y), by simp [List.flatMap_cons]⟩
  have hsub : substrFrom (statRecord pid name fields utime stime tail)
      (pid.length + 2 + name.length + 2) = Except.ok X := by
    unfold substrFrom
    rw [hshape, hX]
    have hl : ((pid ++ [' ', '('] ++ name) ++ ')' :: ' ' :: X).length
        = pid.length + 2 + name.length + 2 + X.length := by
      simp
      omega
    rw [if_neg (by rw [hl]; omega)]
    have e : (pid ++ [' ', '('] ++ name) ++ ')' :: ' ' :: X
        = ((pid ++ [' ', '('] ++ name) ++ [')', ' ']) ++ X := by simp
    rw [e, List.drop_left' (by
      simp only [List.length_append, List.length_cons, List.length_nil])]
  have hYhead : ∀ y ∈ Y.head?, isSpace y = true := by
    intro y hy
    rw [hY] at hy
    simp only [List.singleton_append, List.head?_cons, Option.mem_def, Option.some.injEq] at hy
    subst hy
    exact hspace
  have hskip : skipTokens 11 (IStream.ofLine X) = some { buf := Y, failed := false } := by
    have h11 := skipTokens_fields fields Y hfields hYhead
    rw [hlen, ← hR] at h11
    rw [skipTokens_skip_space 10 ' ' X hspace, ← hX]
    exact h11
  have hsp1 : ∀ c ∈ [' '], isSpace c = true := by
    intro c hc
    simp only [List.mem_singleton] at hc
    subst hc
    exact hspace
  have hut : (IStream.ofLine Y).getU64 0 = (utime, { buf := Y2, failed := false }) := by
    have := getU64_digits [' '] (decimal utime) Y2 0 hsp1 (decimal_ne_nil utime)
      (decimal_isDigit utime) (by
        intro y hy
        rw [hY2] at hy
        simp only [List.singleton_append, List.head?_cons, Option.mem_def,
          Option.some.injEq] at hy
        subst hy
        decide) (by rw [digitsVal_decimal]; exact hu)
    rw [digitsVal_decimal] at this
    rw [hY]
    exact this
  have hst : (IStream.ofLine Y2).getU64 0 = (stime, { buf := tail, failed := false }) := by
    have := getU64_digits [' '] (decimal stime) tail 0 hsp1 (decimal_ne_nil stime)
      (decimal_isDigit stime) (fun y hy => not_isDigit_of_isSpace (htail y hy))
      (by rw [digitsVal_decimal]; exact hs)
    rw [digitsVal_decimal] at this
    rw [hY2]
    exact this
  have hrun : ∃ rss, readProcSnapshot pageSize valInit files
      = Except.ok { totalTime := (utime + stime) % U64, rss := rss } := by
    unfold readProcSnapshot
    simp only [hstat, hfind, hrfind]
    rw [if_neg (by omega), hsub]
    simp only [hskip]
    have hut' : IStream.getU64 { buf := Y, failed := false } 0
        = (utime, { buf := Y2, failed := false }) := hut
    have hst' : IStream.getU64 { buf := Y2, failed := false } 0
        = (stime, { buf := tail, failed := false }) := hst
    simp only [hut', hst', Bool.false_eq_true, if_false]
    exact ⟨_, rfl⟩
  obtain ⟨rss, hrss⟩ := hrun
  refine ⟨hfind, hrfind, hcomm, ⟨rss, hrss⟩, fun hfit => ⟨rss, ?_⟩⟩
  rw [hrss, Nat.mod_eq_of_lt hfit]

/-- C6, for the record `1234 (my (we)ird) na) S 1 2 3 4 5 6 7 8 9 10 111 222 0 0`. -/
theorem readProcSnapshot_totalTime_witness :
    ∃ rss, readProcSnapshot 4096 0
        { stat := some (statRecord "1234".toList "my (we)ird) na".toList
            ["S".toList, "1".toList, "2".toList, "3".toList, "4".toList, "5".toList,
              "6".toList, "7".toList, "8".toList, "9".toList, "10".toList] 111 222
            " 0 0".toList),
          statm := some "10 20 3".toList, status := [] }
      = Except.ok { totalTime := 111 + 222, rss := rss } :=
  (readProcSnapshot_totalTime 4096 0
    { stat := some (statRecord "1234".toList "my (we)ird) na".toList
        ["S".toList, "1".toList, "2".toList, "3".toList, "4".toList, "5".toList,
          "6".toList, "7".toList, "8".toList, "9".toList, "10".toList] 111 222
        " 0 0".toList),
      statm := some "10 20 3".toList, status := [] }
    "1234".toList "my (we)ird) na".toList " 0 0".toList
    ["S".toList, "1".toList, "2".toList, "3".toList, "4".toList, "5".toList,
      "6".toList, "7".toList, "8".toList, "9".toList, "10".toList] 111 222
    rfl (by decide) rfl (by decide) (by decide) (by decide)
    (by decide) (by decide)).2.2.2.2 (by decide)

/-! ## The kill command -/

theorem takeWhile_append_of_stop (p : Char → Bool) (a Y : List Char)
    (hY : ∀ y ∈ Y.head?, p y = false) : (a ++ Y).takeWhile p = a.takeWhile p := by
  induction a with
  | nil =>
    cases Y with
    | nil => rfl
    | cons y ys =>
      have : p y = false := hY y (by simp)
      simp [List.takeWhile, this]
  | cons x xs ih =>
    cases hx : p x <;> simp [List.takeWhile, hx, ih]

theorem digitsVal_eq_zero (ds : List Char) (h : ∀ c ∈ ds, c = '0') : digitsVal ds = 0 := by
  induction ds with
  | nil => rfl
  | cons c cs ih =>
    have hc : c = '0' := h c (List.mem_cons_self _ _)
    have hcs := ih (fun x hx => h x (List.mem_cons_of_mem _ hx))
    have hv : digitVal c = 0 := by subst hc; decide
    have := digitsVal_foldl cs (10 * 0 + digitVal c)
    unfold digitsVal at this hcs ⊢
    simp only [List.foldl_cons]
    rw [this, hcs, hv]
    simp

theorem digitsVal_of_not_positive (s tail : List Char)
    (htail : ∀ y ∈ tail.head?, isSpace y = true) (h : hasPositiveDigits s = false) :
    digitsVal ((s ++ tail).takeWhile isDigit) = 0 := by
  rw [takeWhile_append_of_stop isDigit s tail
    (fun y hy => not_isDigit_of_isSpace (htail y hy))]
  apply digitsVal_eq_zero
  intro c hc
  unfold hasPositiveDigits at h
  rw [List.any_eq_false] at h
  simpa using h c hc

theorem getInt_result_nonpos (buf : List Char) (old : Int)
    (h : (splitSign buf).1 = true ∨ digitsVal ((splitSign buf).2.takeWhile isDigit) = 0)
    (hne : skipWs buf = buf) (hb : buf ≠ []) :
    ((IStream.ofLine buf).getInt old).1 ≤ 0 := by
  unfold IStream.getInt IStream.ofLine
  dsimp only
  rw [if_neg (by simp), hne]
  cases buf with
  | nil => exact absurd rfl hb
  | cons c cs =>
    dsimp only
    split_ifs with h1 h2 h3 h4 h5 h6
    all_goals first
      | exact le_refl 0
      | (unfold INT_MIN; omega)
      | (unfold INT_MAX at *; rcases h with h | h <;> simp_all <;> omega)

theorem getInt_arg_nonpos (ws arg tail : List Char) (old : Int)
    (hws : ∀ c ∈ ws, isSpace c = true)
    (harg : arg ≠ []) (hargc : ∀ c ∈ arg, isSpace c = false)
    (htail : ∀ c ∈ tail.head?, isSpace c = true)
    (hnp : startsPositive arg = false) :
    ((IStream.ofLine (ws ++ (arg ++ tail))).getInt old).1 ≤ 0 := by
  cases arg with
  | nil => exact absurd rfl harg
  | cons c cs =>
    have hc : isSpace c = false := hargc c (List.mem_cons_self _ _)
    have hskip : skipWs (ws ++ (c :: cs ++ tail)) = c :: cs ++ tail :=
      skipWs_append ws _ hws (by
        intro y hy
        simp only [List.cons_append, List.head?_cons, Option.mem_def, Option.some.injEq] at hy
        subst hy
        exact hc)
    have hval : ((IStream.ofLine (c :: cs ++ tail)).getInt old).1 ≤ 0 := by
      apply getInt_result_nonpos
      · unfold startsPositive at hnp
        simp only [List.cons_append, splitSign]
        by_cases hm : c = '-'
        · left
          simp [hm]
        · right
          by_cases hp : c = '+'
          · simp only [hp, if_true] at hnp
            have : ('+' : Char) ≠ '-' := by decide
            simp only [hp, this, if_false, if_true]
            exact digitsVal_of_not_positive cs tail htail hnp
          · simp only [hp, if_false] at hnp
            simp only [hm, hp, if_false]
            exact digitsVal_of_not_positive (c :: cs) tail htail hnp
      · simp [skipWs, List.dropWhile, hc]
      · simp
    have hsame : (IStream.ofLine (ws ++ (c :: cs ++ tail))).getInt old
        = (IStream.ofLine (c :: cs ++ tail)).getInt old := by
      have hskip2 : skipWs (c :: cs ++ tail) = c :: cs ++ tail := by
        simp [skipWs, List.dropWhile, hc]
      unfold IStream.getInt IStream.ofLine
      dsimp only
      rw [hskip, hskip2]
      simp
    rw [hsame]
    exact hval

/-- C4 (as stated, refuted): the PID argument of `k 12abc` is not a number (the program's own
`isNumber` rejects it), yet the extraction reads its prefix `12` and the handler sends the
termination signal to PID 12. -/
theorem kill_command_signals_numeric_prefix :
    isNumber "12abc".toList = false
      ∧ handleLine "k 12abc".toList 0 true
        = ([Action.kill 12, Action.sentSigterm 12, Action.sleep 300], Flow.fallThrough) := by
  constructor <;> decide

theorem digitVal_pos_of_ne_zero {c : Char} (hd : isDigit c = true) (hz : c ≠ '0') :
    0 < digitVal c := by
  unfold isDigit at hd
  unfold digitVal
  simp only [Bool.and_eq_true, decide_eq_true_eq] at hd
  have hne : c.toNat ≠ 48 := by
    intro h
    apply hz
    rw [← Char.ofNat_toNat c, h]
  omega

theorem digitsVal_pos (ds : List Char) (hd : ∀ c ∈ ds, isDigit c = true)
    (hz : ∃ c ∈ ds, c ≠ '0') : 0 < digitsVal ds := by
  induction ds with
  | nil =>
    obtain ⟨c, hc, _⟩ := hz
    cases hc
  | cons c cs ih =>
    have hsplit : digitsVal (c :: cs) = digitVal c * 10 ^ cs.length + digitsVal cs := by
      have := digitsVal_foldl cs (10 * 0 + digitVal c)
      unfold digitsVal at this ⊢
      simp only [List.foldl_cons]
      rw [this]
      simp
    rw [hsplit]
    obtain ⟨x, hx, hxz⟩ := hz
    rcases List.mem_cons.mp hx with rfl | hin
    · have h1 := digitVal_pos_of_ne_zero (hd x (List.mem_cons_self _ _)) hxz
      have h2 : 0 < 10 ^ cs.length := Nat.pow_pos (by decide)
      have := Nat.mul_pos h1 h2
      omega
    · have := ih (fun y hy => hd y (List.mem_cons_of_mem _ hy)) ⟨x, hin, hxz⟩
      omega

theorem getInt_result_of_digits (buf : List Char) (old : Int)
    (hsign : (splitSign buf).1 = false)
    (hds : (splitSign buf).2.takeWhile isDigit ≠ [])
    (hne : skipWs buf = buf) (hb : buf ≠ []) :
    ((IStream.ofLine buf).getInt old).1
      = min (digitsVal ((splitSign buf).2.takeWhile isDigit) : Int) INT_MAX := by
  unfold IStream.getInt IStream.ofLine
  dsimp only
  rw [if_neg (by simp), hne]
  cases buf with
  | nil => exact absurd rfl hb
  | cons c cs =>
    dsimp only
    rw [if_neg hds]
    simp only [hsign, Bool.false_eq_true, if_false]
    have hnn : (0 : Int) ≤ (digitsVal (List.takeWhile isDigit (splitSign (c :: cs)).2) : Int) :=
      Int.ofNat_nonneg _
    split_ifs with h1 h2
    · unfold INT_MIN at h1
      omega
    · exact (min_eq_right (le_of_lt h2)).symm
    · exact (min_eq_left (not_lt.mp h2)).symm

theorem getInt_arg_positive (ws arg tail : List Char) (old : Int)
    (hws : ∀ c ∈ ws, isSpace c = true)
    (harg : arg ≠ []) (hargc : ∀ c ∈ arg, isSpace c = false)
    (htail : ∀ c ∈ tail.head?, isSpace c = true)
    (hp : startsPositive arg = true) :
    ((IStream.ofLine (ws ++ (arg ++ tail))).getInt old).1 = signalledPid arg
      ∧ 0 < signalledPid arg := by
  cases arg with
  | nil => exact absurd rfl harg
  | cons c cs =>
    have hc : isSpace c = false := hargc c (List.mem_cons_self _ _)
    have hstop : ∀ y ∈ tail.head?, isDigit y = false :=
      fun y hy => not_isDigit_of_isSpace (htail y hy)
    have hskip : skipWs (ws ++ (c :: cs ++ tail)) = c :: cs ++ tail :=
      skipWs_append ws _ hws (by
        intro y hy
        simp only [List.cons_append, List.head?_cons, Option.mem_def, Option.some.injEq] at hy
        subst hy
        exact hc)
    have hskip2 : skipWs (c :: cs ++ tail) = c :: cs ++ tail := by
      simp [skipWs, List.dropWhile, hc]
    have hsame : (IStream.ofLine (ws ++ (c :: cs ++ tail))).getInt old
        = (IStream.ofLine (c :: cs ++ tail)).getInt old := by
      unfold IStream.getInt IStream.ofLine
      dsimp only
      rw [hskip, hskip2]
      simp
    -- the digits the extraction reads are the leading digits of the argument
    have hlead : (splitSign (c :: cs ++ tail)).1 = false
        ∧ (splitSign (c :: cs ++ tail)).2.takeWhile isDigit = leadingDigits (c :: cs)
        ∧ hasPositiveDigits (if c = '+' then cs else c :: cs) = true := by
      unfold startsPositive at hp
      unfold leadingDigits
      simp only [List.cons_append, splitSign]
      by_cases hplus : c = '+'
      · have hnm : ('+' : Char) ≠ '-' := by decide
        simp only [hplus, if_true] at hp
        simp only [hplus, hnm, if_false, if_true]
        exact ⟨trivial, takeWhile_append_of_stop isDigit cs tail hstop, hp⟩
      · simp only [hplus, if_false] at hp
        have hm : c ≠ '-' := by
          intro hm
          subst hm
          revert hp
          unfold hasPositiveDigits
          simp [List.takeWhile, isDigit]
        simp only [hm, hplus, if_false]
        exact ⟨trivial, takeWhile_append_of_stop isDigit (c :: cs) tail hstop, hp⟩
    obtain ⟨h1, h2, h3⟩ := hlead
    have hmem : ∃ x ∈ leadingDigits (c :: cs), x ≠ '0' := by
      unfold hasPositiveDigits at h3
      rw [List.any_eq_true] at h3
      obtain ⟨x, hx, hxz⟩ := h3
      refine ⟨x, ?_, by simpa using hxz⟩
      unfold leadingDigits
      by_cases hplus : c = '+'
      · simpa [hplus] using hx
      · simpa [hplus] using hx
    have hdig : ∀ x ∈ leadingDigits (c :: cs), isDigit x = true := by
      intro x hx
      unfold leadingDigits at hx
      by_cases hplus : c = '+'
      · simp only [hplus, if_true] at hx
        exact List.mem_takeWhile_imp hx
      · simp only [hplus, if_false] at hx
        exact List.mem_takeWhile_imp hx
    have hnonempty : (splitSign (c :: cs ++ tail)).2.takeWhile isDigit ≠ [] := by
      rw [h2]
      obtain ⟨x, hx, _⟩ := hmem
      exact List.ne_nil_of_mem hx
    have hpos := digitsVal_pos _ hdig hmem
    have hval := getInt_result_of_digits (c :: cs ++ tail) old h1 hnonempty hskip2 (by simp)
    rw [h2] at hval
    refine ⟨by rw [hsame, hval]; rfl, ?_⟩
    unfold signalledPid INT_MAX
    omega

theorem handleLine_kill_shape (raw cmd sep arg tail : List Char)
    (pidInit : Int) (killOk : Bool)
    (htrim : trimLine raw = cmd ++ (sep ++ (arg ++ tail)))
    (hk : cmd.head? = some 'k' ∨ cmd.head? = some 'K')
    (hcmd : ∀ c ∈ cmd, isSpace c = false)
    (hsep : sep ≠ []) (hsepc : ∀ c ∈ sep, isSpace c = true) :
    handleLine raw pidInit killOk
      = if ((IStream.ofLine (sep ++ (arg ++ tail))).getInt pidInit).1 > 0 then
          ([Action.kill ((IStream.ofLine (sep ++ (arg ++ tail))).getInt pidInit).1,
            if killOk then
              Action.sentSigterm ((IStream.ofLine (sep ++ (arg ++ tail))).getInt pidInit).1
            else Action.perror,
            Action.sleep 300], Flow.fallThrough)
        else ([Action.invalidPid], Flow.fallThrough) := by
  cases cmd with
  | nil => simp at hk
  | cons c cs =>
    have hc : c = 'k' ∨ c = 'K' := by simpa using hk
    have hword := getWord_field [] (c :: cs) (sep ++ (arg ++ tail)) []
      (fun x hx => by cases hx) (by simp) hcmd (by
        cases sep with
        | nil => exact absurd rfl hsep
        | cons s ss =>
          intro y hy
          simp only [List.cons_append, List.head?_cons, Option.mem_def,
            Option.some.injEq] at hy
          subst hy
          exact hsepc _ (List.mem_cons_self _ _))
    have hq : ¬ (c :: (cs ++ (sep ++ (arg ++ tail))) = ['q']
        ∨ c :: (cs ++ (sep ++ (arg ++ tail))) = ['Q']) := by
      rcases hc with rfl | rfl <;> simp
    unfold handleLine
    rw [htrim]
    simp only [List.cons_append]
    rw [if_neg hq, if_pos hc]
    simp only [List.nil_append, List.cons_append] at hword
    rw [hword]
    rfl

/-- C4 (amended): when the trimmed line is a word starting with `k` or `K`, white space,
and a PID argument, the handler decides by the decimal number the argument starts with
(after an optional `+`): if there is no such positive number it sends no signal, reports an
invalid PID and falls through to the end of the loop body; if there is one it calls `kill`
on that number, clamped to the largest `int`, whatever follows the digits; and for `k 1234`
it calls `kill` on PID 1234. -/
theorem kill_command_decided_by_leading_number (raw cmd sep arg tail : List Char)
    (pidInit : Int) (killOk : Bool)
    (htrim : trimLine raw = cmd ++ (sep ++ (arg ++ tail)))
    (hk : cmd.head? = some 'k' ∨ cmd.head? = some 'K')
    (hcmd : ∀ c ∈ cmd, isSpace c = false)
    (hsep : sep ≠ []) (hsepc : ∀ c ∈ sep, isSpace c = true)
    (harg : arg ≠ []) (hargc : ∀ c ∈ arg, isSpace c = false)
    (htail : ∀ c ∈ tail.head?, isSpace c = true) :
    (startsPositive arg = false →
        handleLine raw pidInit killOk = ([Action.invalidPid], Flow.fallThrough))
      ∧ (startsPositive arg = true →
        handleLine raw pidInit killOk
          = ([Action.kill (signalledPid arg),
              if killOk then Action.sentSigterm (signalledPid arg) else Action.perror,
              Action.sleep 300], Flow.fallThrough))
      ∧ ∀ (p : Int) (ok : Bool), handleLine "k 1234".toList p ok
          = ([Action.kill 1234, if ok then Action.sentSigterm 1234 else Action.perror,
              Action.sleep 300], Flow.fallThrough) := by
  have hshape := handleLine_kill_shape raw cmd sep arg tail pidInit killOk htrim hk hcmd
    hsep hsepc
  refine ⟨fun hnp => ?_, fun hp => ?_, fun p ok => rfl⟩
  · have hpid := getInt_arg_nonpos sep arg tail pidInit hsepc harg hargc htail hnp
    rw [hshape, if_neg (not_lt.mpr hpid)]
  · obtain ⟨hval, hpos⟩ := getInt_arg_positive sep arg tail pidInit hsepc harg hargc htail hp
    rw [hshape, hval, if_pos hpos]

/-- C4 (amended), on the lines `k -5` and `k abc` of the claim, which are rejected, and on
`k 2147483648x`, which is signalled at the largest `int`. -/
theorem kill_command_decided_by_leading_number_witness :
    handleLine "k -5".toList 77 true = ([Action.invalidPid], Flow.fallThrough)
      ∧ handleLine "  K   abc ".toList 77 true = ([Action.invalidPid], Flow.fallThrough)
      ∧ handleLine "k 2147483648x".toList 77 false
          = ([Action.kill (signalledPid "2147483648x".toList), Action.perror,
              Action.sleep 300], Flow.fallThrough)
      ∧ signalledPid "2147483648x".toList = 2147483647 :=
  ⟨(kill_command_decided_by_leading_number "k -5".toList "k".toList " ".toList "-5".toList []
      77 true rfl (by decide) (by decide) (by decide) (by decide) (by decide) (by decide)
      (by decide)).1 (by decide),
   (kill_command_decided_by_leading_number "  K   abc ".toList "K".toList "   ".toList
      "abc".toList [] 77 true (by decide) (by decide) (by decide) (by decide) (by decide)
      (by decide) (by decide) (by decide)).1 (by decide),
   (kill_command_decided_by_leading_number "k 2147483648x".toList "k".toList " ".toList
      "2147483648x".toList [] 77 false (by decide) (by decide) (by decide) (by decide)
      (by decide) (by decide) (by decide) (by decide)).2.1 (by decide),
   by decide⟩

/-! ## Further facts about the map and the handler -/

theorem ProcMap.keys_set (m : ProcMap) (pid : Int) (s : ProcSnapshot) :
    (m.set pid s).map Prod.fst
      = if pid ∈ m.map Prod.fst then m.map Prod.fst else m.map Prod.fst ++ [pid] := by
  induction m with
  | nil => simp [ProcMap.set]
  | cons kv rest ih =>
    obtain ⟨k, v⟩ := kv
    unfold ProcMap.set
    by_cases hk : k = pid
    · simp [hk]
    · have hk' : ¬ pid = k := fun h => hk h.symm
      simp only [if_neg hk, List.map_cons, ih, List.mem_cons, hk', false_or]
      split_ifs <;> simp

theorem ProcMap.set_wellFormed (m : ProcMap) (pid : Int) (s : ProcSnapshot)
    (h : m.WellFormed) : (m.set pid s).WellFormed := by
  unfold ProcMap.WellFormed at *
  rw [ProcMap.keys_set]
  split_ifs with hin
  · exact h
  · rw [List.nodup_append]
    refine ⟨h, List.nodup_singleton _, ?_⟩
    intro a ha hb
    simp only [List.mem_singleton] at hb
    subst hb
    exact hin ha

theorem sampleProcs_wellFormed (pageSize : Nat) (valInit : Int → Nat) (files : Int → ProcFiles)
    (pids : List Int) (m m' : ProcMap) (h : m.WellFormed)
    (hs : sampleProcs pageSize valInit files pids m = Except.ok m') : m'.WellFormed := by
  induction pids generalizing m with
  | nil =>
    simp only [sampleProcs, Except.ok.injEq] at hs
    exact hs ▸ h
  | cons pid rest ih =>
    unfold sampleProcs at hs
    cases hr : readProcSnapshot pageSize (valInit pid) (files pid) with
    | error e => rw [hr] at hs; cases hs
    | ok s =>
      rw [hr] at hs
      exact ih _ (ProcMap.set_wellFormed m pid s h) hs

/-- A line that holds only `k`: the extraction of the PID finds the stream at its end and
stores nothing, so the test `pid > 0` reads the value the variable held before. -/
theorem kill_command_without_argument (pidInit : Int) (killOk : Bool) :
    handleLine "k".toList pidInit killOk
      = if pidInit > 0 then
          ([Action.kill pidInit,
            if killOk then Action.sentSigterm pidInit else Action.perror,
            Action.sleep 300], Flow.fallThrough)
        else ([Action.invalidPid], Flow.fallThrough) := by
  rfl

end SystemMonitor
